import Mathlib

/-!
Verification of the QLT drill/route program decoder and coordinate-expression
evaluator (src/main.py) against its natural-language specification.

The embedding is executable throughout.  Numeric values are modelled as exact
rationals (`ℚ`): every numeric value appearing in the verified properties is a
dyadic rational, exactly representable by the host's floating point numbers,
so the idealisation does not change any verified statement.

The four Batteries `Rat` operations used by the evaluator are `@[irreducible]`
only as an elaboration hint; they are restored to the default reducibility so
that concrete runs of the evaluator can be checked by `decide`.
-/

set_option allowUnsafeReducibility true in
attribute [semireducible] Rat.add Rat.sub Rat.mul Rat.inv Rat.div

/-- Tokens of the host expression language's numeric fragment: numbers,
identifiers, the operators `+ - * / **`, and parentheses. -/
inductive Tok where
  | num (q : ℚ)
  | name (s : String)
  | plus
  | minus
  | star
  | slash
  | dstar
  | lparen
  | rparen
deriving DecidableEq

/-- Numeric value of a decimal digit character. -/
def digitVal (c : Char) : Nat := c.toNat - 48

/-- Value of a list of decimal digit characters read most-significant first. -/
def digitsVal (ds : List Char) : Nat := ds.foldl (fun a c => 10 * a + digitVal c) 0

/-- Whether a character can start a host-language identifier. -/
def isIdentStart (c : Char) : Bool := c.isAlpha || c == '_'

/-- Whether a character can continue a host-language identifier. -/
def isIdentCh (c : Char) : Bool := c.isAlphanum || c == '_'

/-- Tokenizer for the numeric fragment of host expressions.  The fuel argument
is only a structural-termination device: the caller passes the length of the
character list, and every step consumes at least one character, so the
fuel-exhausted branch is unreachable from `tokenizeStr`.  Characters outside
the fragment (anything but digits, `.` inside a number, identifier characters,
spaces, and the eight operator/parenthesis characters) are a syntax error,
modelled as `none`. -/
def tokenizeFuel : Nat → List Char → Option (List Tok)
  | _, [] => some []
  | 0, _ :: _ => none
  | f + 1, c :: rest =>
    if c == ' ' then tokenizeFuel f rest
    else if c == '+' then (tokenizeFuel f rest).map fun ts => Tok.plus :: ts
    else if c == '-' then (tokenizeFuel f rest).map fun ts => Tok.minus :: ts
    else if c == '*' then
      match rest with
      | '*' :: rest2 => (tokenizeFuel f rest2).map fun ts => Tok.dstar :: ts
      | _ => (tokenizeFuel f rest).map fun ts => Tok.star :: ts
    else if c == '/' then (tokenizeFuel f rest).map fun ts => Tok.slash :: ts
    else if c == '(' then (tokenizeFuel f rest).map fun ts => Tok.lparen :: ts
    else if c == ')' then (tokenizeFuel f rest).map fun ts => Tok.rparen :: ts
    else if c.isDigit then
      let ds := List.takeWhile Char.isDigit (c :: rest)
      let r2 := List.dropWhile Char.isDigit (c :: rest)
      match r2 with
      | '.' :: r3 =>
        let fs := List.takeWhile Char.isDigit r3
        let r4 := List.dropWhile Char.isDigit r3
        (tokenizeFuel f r4).map fun ts =>
          Tok.num ((digitsVal ds : ℚ) + (digitsVal fs : ℚ) / (10 : ℚ) ^ fs.length) :: ts
      | _ => (tokenizeFuel f r2).map fun ts => Tok.num (digitsVal ds : ℚ) :: ts
    else if isIdentStart c then
      let nm := List.takeWhile isIdentCh (c :: rest)
      let r2 := List.dropWhile isIdentCh (c :: rest)
      (tokenizeFuel f r2).map fun ts => Tok.name (String.mk nm) :: ts
    else none

/-- Tokenize a whole string. -/
def tokenizeStr (s : String) : Option (List Tok) := tokenizeFuel s.data.length s.data

/-- Host-language exponentiation on exact rationals.  Integer exponents follow
the host semantics exactly (`0 ** negative` raises, hence `none`); a
non-integer exponent would produce an irrational value, which the rational
model cannot represent, so it is conservatively mapped to `none`.  No verified
property depends on non-integer exponents. -/
def pyPow (x y : ℚ) : Option ℚ :=
  if y.den = 1 then
    if 0 ≤ y.num then some (x ^ y.num.toNat)
    else if x = 0 then none
    else some ((x ^ (-y.num).toNat)⁻¹)
  else none

/-- Parser nonterminals: additive expression, additive-loop carrying the value
parsed so far, multiplicative term, term-loop, unary expression, and primary
(atom, possibly followed by a power operator in the host grammar). -/
inductive PK where
  | E
  | EL (acc : ℚ)
  | T
  | TL (acc : ℚ)
  | U
  | P

/-- Recursive-descent parser-evaluator for the numeric fragment of the host
language's expression evaluator invoked at src/main.py line 88 (`eval`).
Precedence and associativity follow the host grammar: `+ -` (left), `* /`
(left), unary minus, `**` (right, binding a primary on its left and a unary
expression on its right).  Division by zero is a runtime failure, hence
`none`; so is any identifier (a name-resolution failure — names bound in the
host environment and non-numeric values are outside the modelled fragment).
Syntax and runtime failures are deliberately conflated into `none`: the
program catches every exception alike and skips the expression.  The fuel
argument is a structural-termination device; `4 * length + 4` always
suffices because every grammar production either consumes a token or moves
strictly down the four-level nonterminal chain. -/
def pyParse : Nat → PK → List Tok → Option (ℚ × List Tok)
  | 0, _, _ => none
  | f + 1, PK.E, ts =>
    match pyParse f PK.T ts with
    | some (v, r) => pyParse f (PK.EL v) r
    | none => none
  | f + 1, PK.EL acc, Tok.plus :: ts =>
    match pyParse f PK.T ts with
    | some (v, r) => pyParse f (PK.EL (acc + v)) r
    | none => none
  | f + 1, PK.EL acc, Tok.minus :: ts =>
    match pyParse f PK.T ts with
    | some (v, r) => pyParse f (PK.EL (acc - v)) r
    | none => none
  | _ + 1, PK.EL acc, ts => some (acc, ts)
  | f + 1, PK.T, ts =>
    match pyParse f PK.U ts with
    | some (v, r) => pyParse f (PK.TL v) r
    | none => none
  | f + 1, PK.TL acc, Tok.star :: ts =>
    match pyParse f PK.U ts with
    | some (v, r) => pyParse f (PK.TL (acc * v)) r
    | none => none
  | f + 1, PK.TL acc, Tok.slash :: ts =>
    match pyParse f PK.U ts with
    | some (v, r) => if v = 0 then none else pyParse f (PK.TL (acc / v)) r
    | none => none
  | _ + 1, PK.TL acc, ts => some (acc, ts)
  | f + 1, PK.U, Tok.minus :: ts =>
    match pyParse f PK.U ts with
    | some (v, r) => some (-v, r)
    | none => none
  | f + 1, PK.U, ts => pyParse f PK.P ts
  | f + 1, PK.P, Tok.num q :: ts =>
    match ts with
    | Tok.dstar :: ts2 =>
      match pyParse f PK.U ts2 with
      | some (w, r) =>
        match pyPow q w with
        | some u => some (u, r)
        | none => none
      | none => none
    | _ => some (q, ts)
  | _ + 1, PK.P, Tok.name _ :: _ => none
  | f + 1, PK.P, Tok.lparen :: ts =>
    match pyParse f PK.E ts with
    | some (v, Tok.rparen :: r2) =>
      match r2 with
      | Tok.dstar :: ts2 =>
        match pyParse f PK.U ts2 with
        | some (w, r3) =>
          match pyPow v w with
          | some u => some (u, r3)
          | none => none
        | none => none
      | _ => some (v, r2)
    | _ => none
  | _ + 1, PK.P, _ => none

/-- The host evaluator on one expression string: tokenize, parse a single
complete expression, and return its numeric value, with `none` for any syntax
error, name-resolution failure, or division by zero. -/
def pyEval (s : String) : Option ℚ :=
  match tokenizeStr s with
  | none => none
  | some ts =>
    match pyParse (4 * ts.length + 4) PK.E ts with
    | some (v, []) => some v
    | _ => none

/-- Modelled from the spec: which tokens belong to the pure arithmetic grammar
of spec section 4.2 step 3 — binary `+ - * /`, parentheses, unary minus, and
decimal literals.  The power operator and identifiers are outside it. -/
def specTok : Tok → Bool
  | Tok.dstar => false
  | Tok.name _ => false
  | _ => true

/-- Modelled from the spec: recursive-descent parser-evaluator for exactly the
pure arithmetic grammar of spec section 4.2 step 3 (binary `+ - * /` with the
usual precedence and left associativity, parentheses, unary minus, decimal
literals), evaluating over exact rationals, failing on division by zero. -/
def specParse : Nat → PK → List Tok → Option (ℚ × List Tok)
  | 0, _, _ => none
  | f + 1, PK.E, ts =>
    match specParse f PK.T ts with
    | some (v, r) => specParse f (PK.EL v) r
    | none => none
  | f + 1, PK.EL acc, Tok.plus :: ts =>
    match specParse f PK.T ts with
    | some (v, r) => specParse f (PK.EL (acc + v)) r
    | none => none
  | f + 1, PK.EL acc, Tok.minus :: ts =>
    match specParse f PK.T ts with
    | some (v, r) => specParse f (PK.EL (acc - v)) r
    | none => none
  | _ + 1, PK.EL acc, ts => some (acc, ts)
  | f + 1, PK.T, ts =>
    match specParse f PK.U ts with
    | some (v, r) => specParse f (PK.TL v) r
    | none => none
  | f + 1, PK.TL acc, Tok.star :: ts =>
    match specParse f PK.U ts with
    | some (v, r) => specParse f (PK.TL (acc * v)) r
    | none => none
  | f + 1, PK.TL acc, Tok.slash :: ts =>
    match specParse f PK.U ts with
    | some (v, r) => if v = 0 then none else specParse f (PK.TL (acc / v)) r
    | none => none
  | _ + 1, PK.TL acc, ts => some (acc, ts)
  | f + 1, PK.U, Tok.minus :: ts =>
    match specParse f PK.U ts with
    | some (v, r) => some (-v, r)
    | none => none
  | f + 1, PK.U, ts => specParse f PK.P ts
  | _ + 1, PK.P, Tok.num q :: ts => some (q, ts)
  | f + 1, PK.P, Tok.lparen :: ts =>
    match specParse f PK.E ts with
    | some (v, Tok.rparen :: r2) => some (v, r2)
    | _ => none
  | _ + 1, PK.P, _ => none

/-- Modelled from the spec: evaluator for exactly the spec's pure arithmetic
grammar.  `specEval s = some v` holds precisely when `s` lies inside the
grammar of spec section 4.2 step 3 and evaluates to `v` without division by
zero. -/
def specEval (s : String) : Option ℚ :=
  match tokenizeStr s with
  | none => none
  | some ts =>
    if ts.all specTok then
      match specParse (4 * ts.length + 4) PK.E ts with
      | some (v, []) => some v
      | _ => none
    else none

/-- Replacement of every occurrence of `old` by `new`, left to right and
non-overlapping, as the host's string `replace` method does (src/main.py
lines 80-82).  The fuel argument is a structural-termination device: the
caller passes the length of the subject list, and every step consumes at
least one character (the program only ever replaces non-empty patterns). -/
def replaceFuel (old new : List Char) : Nat → List Char → List Char
  | _, [] => []
  | 0, s => s
  | f + 1, c :: cs =>
    if old.isPrefixOf (c :: cs) && !old.isEmpty then
      new ++ replaceFuel old new f (List.drop (old.length - 1) cs)
    else
      c :: replaceFuel old new f cs

/-- String-level replacement of every occurrence of `old` by `new`. -/
def strReplace (s old new : String) : String :=
  String.mk (replaceFuel old.data new.data s.data.length s.data)

/-- Removal of every leading and trailing occurrence of the character `c`,
as the host's string `strip` method with a one-character argument does
(src/main.py line 84). -/
def pyStrip (c : Char) (s : String) : String :=
  String.mk (((s.data.dropWhile fun a => a == c).reverse.dropWhile fun a => a == c).reverse)

/-- Decimal rendering of an integer, as the host's `str` on an `int`. -/
def intStr (i : ℤ) : String := toString i

/-- Board dimensions (class BoardSize, src/main.py lines 22-27). -/
structure BoardSize where
  width : ℤ
  height : ℤ
  thickness : ℤ
deriving DecidableEq

/-- The default board constructed at src/main.py line 140:
width 200, height 800, thickness 16. -/
def boardDefault : BoardSize := BoardSize.mk 200 800 16

/-- One decoded row (class QltMachineRow, src/main.py lines 29-61).  The
fields are exactly the attributes `__init__` stores: the four descriptive
fields, the three repetition fields, and the combined coordinate-expression
list.  Note that no attribute named `x` is stored: the first coordinate
expression lives only inside `coordinates`. -/
structure QltMachineRow where
  use : String
  layer : String
  diam : String
  depth : String
  rep_qty : String
  repx : String
  repy : String
  coordinates : List String
deriving DecidableEq

/-- The constructor `QltMachineRow.__init__` (src/main.py lines 46-61): the
coordinate list is built as x, y, z — z is appended directly after x and y,
before the variadic extra columns — followed by every additional coordinate
expression in order. -/
def mkQltMachineRow (use layer diam depth x y rep_qty repx repy z : String)
    (additional : List String) : QltMachineRow :=
  QltMachineRow.mk use layer diam depth rep_qty repx repy (x :: y :: z :: additional)

/-- Placeholder substitution and quote stripping applied to one coordinate
expression before evaluation (src/main.py lines 80-84): replace `Dim1` by the
board height, then `Dim2` by the board width, then `Dim3` by the board
thickness, then strip leading and trailing double quotes. -/
def resolveExpr (panel : BoardSize) (e : String) : String :=
  pyStrip '"'
    (strReplace
      (strReplace (strReplace e "Dim1" (intStr panel.height)) "Dim2" (intStr panel.width))
      "Dim3" (intStr panel.thickness))

/-- The evaluation loop of `calculate_coordinates` (src/main.py lines 70-97)
over the remaining expressions with the current triple buffer: empty
expressions are skipped; failing expressions are skipped; each resolved value
is appended to the buffer, and the buffer is emitted and reset whenever it
reaches three values.  A non-empty buffer left at the end is discarded. -/
def calcAux (panel : BoardSize) : List String → List ℚ → List (List ℚ)
  | [], _ => []
  | e :: rest, buf =>
    if e = "" then calcAux panel rest buf
    else
      match pyEval (resolveExpr panel e) with
      | none => calcAux panel rest buf
      | some v =>
        if (buf ++ [v]).length = 3 then (buf ++ [v]) :: calcAux panel rest []
        else calcAux panel rest (buf ++ [v])

/-- The method `QltMachineRow.calculate_coordinates` (src/main.py lines
63-97): run the evaluation loop over the row's coordinate expressions with an
empty initial buffer. -/
def calculate_coordinates (row : QltMachineRow) (panel : BoardSize) : List (List ℚ) :=
  calcAux panel row.coordinates []

/-- The values of the expressions of a row that resolve successfully —
non-empty and evaluating without error after substitution — in input order. -/
def resolvedValues (panel : BoardSize) (es : List String) : List ℚ :=
  es.filterMap fun e => if e = "" then none else pyEval (resolveExpr panel e)

/-- Grouping of a value sequence into consecutive triples, discarding a
leftover of fewer than three values. -/
def chunk3 : List ℚ → List (List ℚ)
  | a :: b :: c :: rest => [a, b, c] :: chunk3 rest
  | _ => []

/-- One entry of the diagnostics channel: the echo of a non-empty expression
before substitution (src/main.py line 78), or the report of an evaluation
failure carrying the substituted expression (src/main.py line 90). -/
inductive LogEntry where
  | echo (s : String)
  | evalErr (s : String)
deriving DecidableEq

/-- The diagnostics output of the evaluation loop, in emission order. -/
def calcLog (panel : BoardSize) : List String → List LogEntry
  | [] => []
  | e :: rest =>
    if e = "" then calcLog panel rest
    else
      match pyEval (resolveExpr panel e) with
      | none => LogEntry.echo e :: LogEntry.evalErr (resolveExpr panel e) :: calcLog panel rest
      | some _ => LogEntry.echo e :: calcLog panel rest

/-- The evaluation loop with the whole observable state made explicit: it
returns the emitted triples, the diagnostics, and the row object and board
object as they stand after the loop.  The loop body only reads the row and
panel (src/main.py lines 75-96 assign nothing to `self` or `panel`), so the
two are threaded through unchanged. -/
def calcFullGo : List String → List ℚ → QltMachineRow → BoardSize →
    List (List ℚ) × List LogEntry × QltMachineRow × BoardSize
  | [], _, row, panel => ([], [], row, panel)
  | e :: rest, buf, row, panel =>
    if e = "" then calcFullGo rest buf row panel
    else
      match pyEval (resolveExpr panel e) with
      | none =>
        match calcFullGo rest buf row panel with
        | (res, log, row2, panel2) =>
          (res, LogEntry.echo e :: LogEntry.evalErr (resolveExpr panel e) :: log, row2, panel2)
      | some v =>
        if (buf ++ [v]).length = 3 then
          match calcFullGo rest [] row panel with
          | (res, log, row2, panel2) => ((buf ++ [v]) :: res, LogEntry.echo e :: log, row2, panel2)
        else
          match calcFullGo rest (buf ++ [v]) row panel with
          | (res, log, row2, panel2) => (res, LogEntry.echo e :: log, row2, panel2)

/-- The method `calculate_coordinates` with its full observable effect. -/
def calculate_coordinatesFull (row : QltMachineRow) (panel : BoardSize) :
    List (List ℚ) × List LogEntry × QltMachineRow × BoardSize :=
  calcFullGo row.coordinates [] row panel

/-- Attribute lookup on a row object for the string-valued attributes the
constructor stores (the list-valued `coordinates` attribute is never read by
`__repr__` and is omitted).  Any other name — in particular `x` — is an
attribute error, modelled as `none`. -/
def qltGetStr (r : QltMachineRow) : String → Option String
  | "use" => some r.use
  | "layer" => some r.layer
  | "diam" => some r.diam
  | "depth" => some r.depth
  | "rep_qty" => some r.rep_qty
  | "repx" => some r.repx
  | "repy" => some r.repy
  | _ => none

/-- The method `QltMachineRow.__repr__` (src/main.py lines 104-106): format
the fields use, layer, diam, depth, and the attribute `x`.  An attribute
lookup failure aborts the formatting, modelled as `none`. -/
def qltRepr (r : QltMachineRow) : Option String :=
  match qltGetStr r "use" with
  | none => none
  | some u =>
    match qltGetStr r "layer" with
    | none => none
    | some l =>
      match qltGetStr r "diam" with
      | none => none
      | some d =>
        match qltGetStr r "depth" with
        | none => none
        | some dp =>
          match qltGetStr r "x" with
          | none => none
          | some x =>
            some ("QltMachineRow(use=" ++ u ++ ", layer=" ++ l ++ ", diam=" ++ d ++
              ", depth=" ++ dp ++ ", first_coordinate=" ++ x ++ ")")

/-- The row-filtering step of `decode_tsv` (src/main.py line 116): the list
comprehension keeps exactly the non-empty raw rows, so blank lines are gone
before any header counting happens.  (Obtaining the raw rows themselves is
file input, outside the model.) -/
def decode_tsv (rawRows : List (List String)) : List (List String) :=
  rawRows.filter fun r => r ≠ []

/-- The attempted construction `QltMachineRow(*row[1:])` (src/main.py line
133): column 0 is discarded, the next ten columns fill the ten mandatory
parameters, and the remaining columns become the variadic extra coordinates.
With fewer than eleven raw columns the call itself fails (missing required
positional arguments), the exception is caught at line 135, and no row object
exists. -/
def rowCtor : List String → Option QltMachineRow
  | _idx :: use :: layer :: diam :: depth :: x :: y :: rq :: rx :: ry :: z :: rest =>
    some (mkQltMachineRow use layer diam depth x y rq rx ry z rest)
  | _ => none

/-- The per-row outcome of the decoding loop body (src/main.py lines
127-137), header skipping aside: the explicit gate skips rows with fewer
than ten raw columns, and the constructor call fails for rows with exactly
ten raw columns (nine usable columns), which are skipped through the
exception handler. -/
def processRow (row : List String) : Option QltMachineRow :=
  if row.length < 10 then none else rowCtor row

/-- The decoding loop of `main` (src/main.py lines 127-137) from position
`i`: rows at indices 0-3 of the filtered data are discarded as header
regardless of content, and every later row is decoded by the gated
constructor, skipping failures. -/
def mainLoop : Nat → List (List String) → List QltMachineRow
  | _, [] => []
  | i, row :: rest =>
    if i < 4 ∨ row.length < 10 then mainLoop (i + 1) rest
    else
      match rowCtor row with
      | some q => q :: mainLoop (i + 1) rest
      | none => mainLoop (i + 1) rest

/-- The full decoding pipeline of `main` on the raw rows of the file: filter
out empty rows, then run the enumerated decoding loop from index 0. -/
def mainQltRows (rawRows : List (List String)) : List QltMachineRow :=
  mainLoop 0 (decode_tsv rawRows)

/-! ## Helper lemmas -/

/-- The evaluation loop ignores empty expression strings entirely. -/
theorem calcAux_filter_ne_empty (panel : BoardSize) (es : List String) :
    ∀ buf : List ℚ, calcAux panel es buf = calcAux panel (es.filter fun e => e ≠ "") buf := by
  induction es with
  | nil => intro buf; rfl
  | cons e rest ih =>
    intro buf
    by_cases he : e = ""
    · simp [calcAux, he, List.filter_cons, ih buf]
    · cases hv : pyEval (resolveExpr panel e) with
      | none => simp [calcAux, he, hv, List.filter_cons, ih buf]
      | some v =>
        by_cases h3 : (buf ++ [v]).length = 3
        · simp [calcAux, he, hv, h3, List.filter_cons, ih]
        · simp [calcAux, he, hv, h3, List.filter_cons, ih]

/-- The evaluation loop emits exactly the 3-element groups of the
successfully resolved values, continuing from a partial buffer. -/
theorem calcAux_eq_chunk3 (panel : BoardSize) (es : List String) :
    ∀ buf : List ℚ, buf.length < 3 →
      calcAux panel es buf = chunk3 (buf ++ resolvedValues panel es) := by
  induction es with
  | nil =>
    intro buf hb
    match buf, hb with
    | [], _ => rfl
    | [a], _ => rfl
    | [a, b], _ => rfl
  | cons e rest ih =>
    intro buf hb
    by_cases he : e = ""
    · simp [calcAux, he, resolvedValues, List.filterMap_cons, ih buf hb]
    · cases hv : pyEval (resolveExpr panel e) with
      | none =>
        simp [calcAux, he, hv, resolvedValues, List.filterMap_cons, ih buf hb]
      | some v =>
        have hres : resolvedValues panel (e :: rest) = v :: resolvedValues panel rest := by
          simp [resolvedValues, List.filterMap_cons, he, hv]
        by_cases h3 : (buf ++ [v]).length = 3
        · have hbuf2 : buf.length = 2 := by simpa using h3
          match buf, hbuf2 with
          | [a, b], _ =>
            simp [calcAux, he, hv, hres, chunk3, ih [] (by simp)]
        · have hlt : (buf ++ [v]).length < 3 := by
            simp at h3 ⊢
            omega
          rw [calcAux]
          simp only [he, if_false, hv, h3, if_neg, ite_false]
          rw [ih (buf ++ [v]) hlt, hres]
          simp

/-- Grouping into triples keeps exactly `⌊n / 3⌋` groups. -/
theorem chunk3_length : ∀ (n : Nat) (l : List ℚ), l.length ≤ n →
    (chunk3 l).length = l.length / 3 := by
  intro n
  induction n with
  | zero =>
    intro l hl
    match l, hl with
    | [], _ => rfl
  | succ n ih =>
    intro l hl
    match l with
    | [] => rfl
    | [a] => simp [chunk3]
    | [a, b] => simp [chunk3]
    | a :: b :: c :: rest =>
      have hr : rest.length ≤ n := by simp at hl; omega
      simp [chunk3, ih rest hr, List.length_cons]
      omega

/-- The fully explicit evaluation loop returns the pure results, the
diagnostics, and its two inputs unchanged. -/
theorem calcFullGo_eq (es : List String) :
    ∀ (buf : List ℚ) (row : QltMachineRow) (panel : BoardSize),
      calcFullGo es buf row panel = (calcAux panel es buf, calcLog panel es, row, panel) := by
  induction es with
  | nil => intro buf row panel; rfl
  | cons e rest ih =>
    intro buf row panel
    by_cases he : e = ""
    · simp [calcFullGo, calcAux, calcLog, he, ih]
    · cases hv : pyEval (resolveExpr panel e) with
      | none => simp [calcFullGo, calcAux, calcLog, he, hv, ih]
      | some v =>
        by_cases h3 : (buf ++ [v]).length = 3
        · simp [calcFullGo, calcAux, calcLog, he, hv, h3, ih]
        · simp [calcFullGo, calcAux, calcLog, he, hv, h3, ih]
          all_goals by_cases h2 : buf.length = 2 <;> simp [h2]

/-- The diagnostics of the evaluation loop are emitted expression by
expression, so they concatenate over split inputs. -/
theorem calcLog_append (panel : BoardSize) (xs ys : List String) :
    calcLog panel (xs ++ ys) = calcLog panel xs ++ calcLog panel ys := by
  induction xs with
  | nil => rfl
  | cons e rest ih =>
    by_cases he : e = ""
    · simp [calcLog, he, ih]
    · cases hv : pyEval (resolveExpr panel e) with
      | none => simp [calcLog, he, hv, ih]
      | some v => simp [calcLog, he, hv, ih]

/-- The enumerated decoding loop from position `i` is: drop the first
`4 - i` rows, then decode each remaining row independently. -/
theorem mainLoop_eq (ls : List (List String)) :
    ∀ i : Nat, mainLoop i ls = (ls.drop (4 - i)).filterMap processRow := by
  induction ls with
  | nil => intro i; simp [mainLoop]
  | cons row rest ih =>
    intro i
    by_cases h4 : i < 4
    · have hd : (row :: rest).drop (4 - i) = rest.drop (4 - (i + 1)) := by
        have : 4 - i = (4 - (i + 1)) + 1 := by omega
        rw [this, List.drop_succ_cons]
      rw [mainLoop, if_pos (Or.inl h4), ih (i + 1), hd]
    · have hdrop : 4 - i = 0 := by omega
      have hdrop1 : 4 - (i + 1) = 0 := by omega
      by_cases hl : row.length < 10
      · rw [mainLoop, if_pos (Or.inr hl), ih (i + 1), hdrop, hdrop1]
        simp [List.filterMap_cons, processRow, hl]
      · rw [mainLoop, if_neg (by push_neg; exact ⟨by omega, by omega⟩), ih (i + 1), hdrop, hdrop1]
        simp only [List.drop_zero, List.filterMap_cons, processRow, if_neg hl]
        cases hc : rowCtor row <;> simp [hc]

/-! ## Claim theorems -/

/-- C1: for every row and board, evaluation returns exactly the consecutive
triples of the successfully resolved values, in input order — so its length
is the floor of the resolved count divided by three, and a leftover of one or
two values is discarded without a partial triple. -/
theorem C1_triple_count_law (row : QltMachineRow) (panel : BoardSize) :
    calculate_coordinates row panel = chunk3 (resolvedValues panel row.coordinates)
    ∧ (calculate_coordinates row panel).length
        = (resolvedValues panel row.coordinates).length / 3 := by
  have h := calcAux_eq_chunk3 panel row.coordinates [] (by simp)
  simp only [List.nil_append] at h
  refine ⟨by simpa [calculate_coordinates] using h, ?_⟩
  rw [calculate_coordinates, h]
  exact chunk3_length (resolvedValues panel row.coordinates).length _ le_rfl

/-- C3: a raw row is decoded into a RecordRow exactly when it has at least
eleven raw columns, i.e. at least ten usable columns after the index column
is discarded: a row with nine usable columns (ten raw columns) is skipped
entirely, and a row with exactly ten usable columns is accepted with the
three mandatory expressions x, y, z and no additional coordinates. -/
theorem C3_column_count_gate (row : List String) :
    ((processRow row).isSome ↔ 11 ≤ row.length)
    ∧ (∀ i u l d dp x y rq rx ry z : String,
        processRow [i, u, l, d, dp, x, y, rq, rx, ry, z]
          = some (mkQltMachineRow u l d dp x y rq rx ry z [])
        ∧ (mkQltMachineRow u l d dp x y rq rx ry z []).coordinates = [x, y, z]) := by
  constructor
  · rcases row with _ | ⟨a0, _ | ⟨a1, _ | ⟨a2, _ | ⟨a3, _ | ⟨a4, _ | ⟨a5, _ | ⟨a6, _ | ⟨a7, _ | ⟨a8, _ | ⟨a9, _ | ⟨a10, rest⟩⟩⟩⟩⟩⟩⟩⟩⟩⟩⟩ <;> simp [processRow, rowCtor]
  · intro i u l d dp x y rq rx ry z
    exact ⟨by simp [processRow, rowCtor], rfl⟩

/-- C4: an empty expression string is dropped by the evaluation loop and
never occupies a buffer slot — the loop behaves as if the empty strings were
filtered away; on the expression sequence 100, empty, 50 the resolved buffer
content is exactly the values 100 and 50 and no triple is emitted. -/
theorem C4_empty_slot_drop :
    (∀ (panel : BoardSize) (es : List String) (buf : List ℚ),
      calcAux panel es buf = calcAux panel (es.filter fun e => e ≠ "") buf)
    ∧ resolvedValues boardDefault ["100", "", "50"] = [100, 50]
    ∧ calculate_coordinates
        (mkQltMachineRow "" "" "" "" "100" "" "" "" "" "50" []) boardDefault = [] := by
  exact ⟨fun panel es buf => calcAux_filter_ne_empty panel es buf, by decide, by decide⟩

/-- C5: a failing expression is skipped without any substitute value — the
loop's results are the same as if the expression were absent, so the other
values still group into triples — and the failure is reported on the
diagnostics channel together with the offending (substituted) expression,
while evaluation continues over the rest of the row. -/
theorem C5_fail_skip_continue (panel : BoardSize) (xs ys : List String) (bad : String)
    (buf : List ℚ) (hne : bad ≠ "") (hfail : pyEval (resolveExpr panel bad) = none) :
    calcAux panel (xs ++ bad :: ys) buf = calcAux panel (xs ++ ys) buf
    ∧ calcLog panel (xs ++ bad :: ys)
        = calcLog panel xs
            ++ LogEntry.echo bad :: LogEntry.evalErr (resolveExpr panel bad) :: calcLog panel ys := by
  constructor
  · induction xs generalizing buf with
    | nil => simp [calcAux, hne, hfail]
    | cons e rest ih =>
      by_cases he : e = ""
      · simp [calcAux, he, ih]
      · cases hv : pyEval (resolveExpr panel e) with
        | none => simp [calcAux, he, hv, ih]
        | some v =>
          by_cases h3 : (buf ++ [v]).length = 3 <;> simp [calcAux, he, hv, h3, ih]
  · rw [calcLog_append]
    have : calcLog panel (bad :: ys)
        = LogEntry.echo bad :: LogEntry.evalErr (resolveExpr panel bad) :: calcLog panel ys := by
      simp [calcLog, hne, hfail]
    rw [this]

/-- Witness for C5 at spec property P4's inputs: the second expression fails,
the row still evaluates, and with a fourth valid value the triple groups the
values of the first, third and fourth expressions. -/
theorem C5_fail_skip_continue_witness :
    ("bad(((" ≠ "" ∧ pyEval (resolveExpr boardDefault "bad(((") = none)
    ∧ calcAux boardDefault ["1+1", "bad(((", "3"] [] = calcAux boardDefault ["1+1", "3"] []
    ∧ calcAux boardDefault ["1+1", "bad(((", "3", "7"] [] = [[2, 3, 7]]
    ∧ calcLog boardDefault ["1+1", "bad(((", "3"]
        = calcLog boardDefault ["1+1"]
            ++ LogEntry.echo "bad(((" :: LogEntry.evalErr (resolveExpr boardDefault "bad(((")
              :: calcLog boardDefault ["3"] := by
  refine ⟨⟨by decide, by decide⟩, ?_, by decide, ?_⟩
  · exact (C5_fail_skip_continue boardDefault ["1+1"] ["3"] "bad(((" []
      (by decide) (by decide)).1
  · exact (C5_fail_skip_continue boardDefault ["1+1"] ["3"] "bad(((" []
      (by decide) (by decide)).2

/-- C6: an accepted raw row maps its usable columns positionally to use,
layer, diam, depth, x, y, repQty, repX, repY, z, and the coordinate
expression list is x, y, z — z moved up next to x and y — followed by every
further column in file order. -/
theorem C6_positional_mapping (i u l d dp x y rq rx ry z : String) (rest : List String) :
    processRow (i :: u :: l :: d :: dp :: x :: y :: rq :: rx :: ry :: z :: rest)
      = some (mkQltMachineRow u l d dp x y rq rx ry z rest)
    ∧ (mkQltMachineRow u l d dp x y rq rx ry z rest).use = u
    ∧ (mkQltMachineRow u l d dp x y rq rx ry z rest).layer = l
    ∧ (mkQltMachineRow u l d dp x y rq rx ry z rest).diam = d
    ∧ (mkQltMachineRow u l d dp x y rq rx ry z rest).depth = dp
    ∧ (mkQltMachineRow u l d dp x y rq rx ry z rest).rep_qty = rq
    ∧ (mkQltMachineRow u l d dp x y rq rx ry z rest).repx = rx
    ∧ (mkQltMachineRow u l d dp x y rq rx ry z rest).repy = ry
    ∧ (mkQltMachineRow u l d dp x y rq rx ry z rest).coordinates = x :: y :: z :: rest := by
  refine ⟨?_, rfl, rfl, rfl, rfl, rfl, rfl, rfl, rfl⟩
  simp [processRow, rowCtor]

/-- C7: placeholder substitution binds Dim1 to the board height, Dim2 to the
board width and Dim3 to the board thickness, in that order, and strips
surrounding quotes after substituting; with the default board (height 800,
width 200, thickness 16), Dim1/2 resolves to 400, Dim2*2 resolves to 400,
and a quoted expression resolves identically after quote stripping. -/
theorem C7_placeholder_substitution :
    (∀ (b : BoardSize) (e : String),
      resolveExpr b e
        = pyStrip '"'
            (strReplace
              (strReplace (strReplace e "Dim1" (intStr b.height)) "Dim2" (intStr b.width))
              "Dim3" (intStr b.thickness)))
    ∧ resolveExpr boardDefault "Dim1/2" = "800/2"
    ∧ pyEval (resolveExpr boardDefault "Dim1/2") = some 400
    ∧ pyEval (resolveExpr boardDefault "Dim2*2") = some 400
    ∧ resolveExpr boardDefault "\"Dim1/2\"" = "800/2"
    ∧ pyEval (resolveExpr boardDefault "\"Dim1/2\"") = some 400
    ∧ pyEval (resolveExpr boardDefault "Dim3") = some 16 := by
  exact ⟨fun b e => rfl, by decide, by decide, by decide, by decide, by decide, by decide⟩

/-- C8: evaluating a row's coordinates leaves the row object and the board
object exactly as they were, and its only effect besides the returned
triples is the diagnostics output. -/
theorem C8_no_mutation (row : QltMachineRow) (panel : BoardSize) :
    calculate_coordinatesFull row panel
      = (calculate_coordinates row panel, calcLog panel row.coordinates, row, panel) := by
  rw [calculate_coordinatesFull, calculate_coordinates]
  exact calcFullGo_eq row.coordinates [] row panel

/-- C9: blank lines are removed by the reading step before any header
counting, so the decoding pipeline discards the first four non-empty rows —
not the first four physical lines — and decodes every later non-empty row
independently. -/
theorem C9_empty_rows_dropped_before_header (rawRows : List (List String)) :
    mainQltRows rawRows
      = (((rawRows.filter fun r => r ≠ []).drop 4).filterMap processRow) := by
  rw [mainQltRows, mainLoop_eq (decode_tsv rawRows) 0]
  rfl

/-- C10: the string representation of every constructed row fails with an
attribute error, because it reads an attribute named x that the constructor
never stores. -/
theorem C10_repr_attribute_error (r : QltMachineRow) :
    qltRepr r = none ∧ qltGetStr r "x" = none :=
  ⟨rfl, rfl⟩

/-- Every successful run of the spec-grammar parser is reproduced verbatim by
the host-fragment parser: on token streams free of power and identifier
tokens the two recursive descents take identical branches, so the host parser
returns the same value and the same (still spec-token-only) remainder. -/
theorem specParse_refines :
    ∀ (f : Nat) (k : PK) (ts : List Tok) (v : ℚ) (r : List Tok),
      ts.all specTok = true → specParse f k ts = some (v, r) →
      pyParse f k ts = some (v, r) ∧ r.all specTok = true := by
  intro f
  induction f with
  | zero => intro k ts v r _ hs; exact Option.noConfusion hs
  | succ f ih =>
    intro k ts v r hall hs
    cases k with
    | E =>
      rcases hT : specParse f PK.T ts with _ | ⟨v1, r1⟩
      · rw [specParse, hT] at hs
        exact Option.noConfusion hs
      · rw [specParse, hT] at hs
        obtain ⟨hpyT, hall1⟩ := ih PK.T ts v1 r1 hall hT
        obtain ⟨hpyEL, hall2⟩ := ih (PK.EL v1) r1 v r hall1 hs
        rw [pyParse, hpyT]
        exact ⟨hpyEL, hall2⟩
    | EL acc =>
      rcases ts with _ | ⟨t, ts'⟩
      · injection hs with h
        injection h with h1 h2
        subst h1; subst h2
        exact ⟨rfl, hall⟩
      · have hall' : specTok t = true ∧ ts'.all specTok = true := by simpa using hall
        cases t
        case plus =>
          rcases hT : specParse f PK.T ts' with _ | ⟨v1, r1⟩
          · rw [specParse, hT] at hs
            exact Option.noConfusion hs
          · rw [specParse, hT] at hs
            obtain ⟨hpyT, hall1⟩ := ih PK.T ts' v1 r1 hall'.2 hT
            obtain ⟨hpyEL, hall2⟩ := ih (PK.EL (acc + v1)) r1 v r hall1 hs
            rw [pyParse, hpyT]
            exact ⟨hpyEL, hall2⟩
        case minus =>
          rcases hT : specParse f PK.T ts' with _ | ⟨v1, r1⟩
          · rw [specParse, hT] at hs
            exact Option.noConfusion hs
          · rw [specParse, hT] at hs
            obtain ⟨hpyT, hall1⟩ := ih PK.T ts' v1 r1 hall'.2 hT
            obtain ⟨hpyEL, hall2⟩ := ih (PK.EL (acc - v1)) r1 v r hall1 hs
            rw [pyParse, hpyT]
            exact ⟨hpyEL, hall2⟩
        all_goals
          injection hs with h
          injection h with h1 h2
          subst h1; subst h2
          exact ⟨rfl, hall⟩
    | T =>
      rcases hU : specParse f PK.U ts with _ | ⟨v1, r1⟩
      · rw [specParse, hU] at hs
        exact Option.noConfusion hs
      · rw [specParse, hU] at hs
        obtain ⟨hpyU, hall1⟩ := ih PK.U ts v1 r1 hall hU
        obtain ⟨hpyTL, hall2⟩ := ih (PK.TL v1) r1 v r hall1 hs
        rw [pyParse, hpyU]
        exact ⟨hpyTL, hall2⟩
    | TL acc =>
      rcases ts with _ | ⟨t, ts'⟩
      · injection hs with h
        injection h with h1 h2
        subst h1; subst h2
        exact ⟨rfl, hall⟩
      · have hall' : specTok t = true ∧ ts'.all specTok = true := by simpa using hall
        cases t
        case star =>
          rcases hU : specParse f PK.U ts' with _ | ⟨v1, r1⟩
          · rw [specParse, hU] at hs
            exact Option.noConfusion hs
          · rw [specParse, hU] at hs
            obtain ⟨hpyU, hall1⟩ := ih PK.U ts' v1 r1 hall'.2 hU
            obtain ⟨hpyTL, hall2⟩ := ih (PK.TL (acc * v1)) r1 v r hall1 hs
            rw [pyParse, hpyU]
            exact ⟨hpyTL, hall2⟩
        case slash =>
          rcases hU : specParse f PK.U ts' with _ | ⟨v1, r1⟩
          · rw [specParse, hU] at hs
            exact Option.noConfusion hs
          · rw [specParse, hU] at hs
            have hs2 : (if v1 = 0 then none else specParse f (PK.TL (acc / v1)) r1)
                = some (v, r) := hs
            obtain ⟨hpyU, hall1⟩ := ih PK.U ts' v1 r1 hall'.2 hU
            by_cases hv1 : v1 = 0
            · rw [if_pos hv1] at hs2
              exact Option.noConfusion hs2
            · rw [if_neg hv1] at hs2
              obtain ⟨hpyTL, hall2⟩ := ih (PK.TL (acc / v1)) r1 v r hall1 hs2
              rw [pyParse, hpyU]
              refine ⟨?_, hall2⟩
              show (if v1 = 0 then none else pyParse f (PK.TL (acc / v1)) r1) = some (v, r)
              rw [if_neg hv1]
              exact hpyTL
        all_goals
          injection hs with h
          injection h with h1 h2
          subst h1; subst h2
          exact ⟨rfl, hall⟩
    | U =>
      rcases ts with _ | ⟨t, ts'⟩
      · exact ih PK.P [] v r hall hs
      · cases t
        case minus =>
          have hall' : specTok Tok.minus = true ∧ List.all ts' specTok = true := by
            simpa using hall
          rcases hU : specParse f PK.U ts' with _ | ⟨v1, r1⟩
          · rw [specParse, hU] at hs
            exact Option.noConfusion hs
          · rw [specParse, hU] at hs
            injection hs with h
            injection h with h1 h2
            subst h1; subst h2
            obtain ⟨hpyU, hall1⟩ := ih PK.U ts' v1 r1 hall'.2 hU
            rw [pyParse, hpyU]
            exact ⟨rfl, hall1⟩
        all_goals exact ih PK.P _ v r hall hs
    | P =>
      rcases ts with _ | ⟨t, ts'⟩
      · exact Option.noConfusion hs
      · have hall' : specTok t = true ∧ ts'.all specTok = true := by simpa using hall
        cases t
        case num q =>
          injection hs with h
          injection h with h1 h2
          subst h1; subst h2
          refine ⟨?_, hall'.2⟩
          rcases ts' with _ | ⟨t2, ts''⟩
          · rfl
          · cases t2
            case dstar => simp [specTok] at hall'
            all_goals rfl
        case name s => simp [specTok] at hall'
        case lparen =>
          rw [specParse] at hs
          rcases hE : specParse f PK.E ts' with _ | ⟨v1, r1⟩
          · rw [hE] at hs
            exact Option.noConfusion hs
          · rw [hE] at hs
            rcases r1 with _ | ⟨t1, r2⟩
            · exact Option.noConfusion hs
            · cases t1
              case rparen =>
                injection hs with h
                injection h with h1 h2
                subst h1; subst h2
                obtain ⟨hpyE, hall1⟩ := ih PK.E ts' v1 (Tok.rparen :: r2) hall'.2 hE
                have hall2 : r2.all specTok = true := by simpa [specTok] using hall1
                refine ⟨?_, hall2⟩
                rw [pyParse, hpyE]
                rcases r2 with _ | ⟨t2, r3⟩
                · rfl
                · cases t2
                  case dstar => simp [specTok] at hall2
                  all_goals rfl
              all_goals exact Option.noConfusion hs
        all_goals exact Option.noConfusion hs

/-- C2 counterexample: the expression 2**3 lies outside the claimed pure
arithmetic grammar (its power operator is not among binary + - * /,
parentheses, unary minus, decimal literals), yet the host evaluator does not
fail on it — it returns 8 — so an expression outside the grammar is not
necessarily skipped. -/
theorem C2_outside_grammar_counterexample :
    specEval "2**3" = none ∧ pyEval "2**3" = some 8 :=
  ⟨by decide, by decide⟩

/-- C2 (amended): the host evaluator is sound for the spec's pure arithmetic
grammar — every non-empty expression inside the grammar of binary + - * /,
parentheses, unary minus and decimal literals that evaluates without error
yields exactly its arithmetic value — but the host grammar is strictly
larger, so an expression outside the arithmetic grammar need not fail. -/
theorem C2_arith_refinement (s : String) (v : ℚ) (h : specEval s = some v) :
    pyEval s = some v := by
  cases hts : tokenizeStr s with
  | none =>
    have h2 : (none : Option ℚ) = some v := by rw [specEval, hts] at h; exact h
    exact Option.noConfusion h2
  | some ts =>
    have h2 : (if ts.all specTok then
        match specParse (4 * ts.length + 4) PK.E ts with
        | some (v1, []) => some v1
        | _ => none
      else none) = some v := by rw [specEval, hts] at h; exact h
    by_cases hall : ts.all specTok = true
    · rw [if_pos hall] at h2
      cases hp : specParse (4 * ts.length + 4) PK.E ts with
      | none =>
        rw [hp] at h2
        exact Option.noConfusion h2
      | some pr =>
        obtain ⟨v1, r1⟩ := pr
        rw [hp] at h2
        cases r1 with
        | nil =>
          have h3 : some v1 = some v := h2
          injection h3 with h1
          subst h1
          obtain ⟨hpy, _⟩ := specParse_refines (4 * ts.length + 4) PK.E ts v1 [] hall hp
          rw [pyEval, hts]
          show (match pyParse (4 * ts.length + 4) PK.E ts with
            | some (v1, []) => some v1
            | _ => none) = some v1
          rw [hpy]
        | cons t r2 =>
          have h3 : (none : Option ℚ) = some v := h2
          exact Option.noConfusion h3
    · rw [if_neg hall] at h2
      exact Option.noConfusion h2

/-- Witness for the amended C2 on a concrete in-grammar expression with
parentheses, both binary operator levels, and a unary minus. -/
theorem C2_arith_refinement_witness :
    specEval "(1+2)*3--4" = some 13 ∧ pyEval "(1+2)*3--4" = some 13 :=
  ⟨by decide, C2_arith_refinement "(1+2)*3--4" 13 (by decide)⟩
